import Mathlib

/-!
Verification of the stag GPU kernel core: the strided index resolver,
the elementwise binary-div forward/backward kernels, the relu backward
derivative, and the 2D pooling (avg/max/min) forward/backward kernels.

Scalars are modelled by rationals (ℚ), the exact idealization of the
floating-point types the kernels are instantiated at; the max/min pooling
seeds negative/positive infinity are modelled by the bottom/top elements of
`WithBot ℚ` / `WithTop ℚ`.  Machine indices (`size_t`, `unsigned int`) are
modelled by `Nat`: every subtraction in the kernels is guarded by the
corresponding `<` test, so truncated `Nat` subtraction agrees with the
unsigned arithmetic on the guarded paths.  Buffers are total maps
`Nat → ℚ`; a kernel launch is a fold of per-thread tasks over the flat
index range.
-/

namespace Stag

/-- Modelled from the spec: the body of `get_strided_index` lives in
`cuda_utils.cuh`, which is not part of the provided sources (only its call
sites in `binary_div.cu` are).  Per the spec, the loop processes dimensions
from the innermost (index `num_dims-1`) to the outermost with a running
remainder, accumulating `(remainder % dims[d]) * strides[d]` and dividing
the remainder by `dims[d]`.  `stridedLoop` is that loop, consuming the
(dim, stride) pairs innermost-first. -/
def stridedLoop : Nat → List (Nat × Nat) → Nat
  | _, [] => 0
  | i, p :: rest => (i % p.1) * p.2 + stridedLoop (i / p.1) rest

/-- Modelled from the spec: `get_strided_index(i, num_dims, dims, strides)`,
the strided index resolver of `cuda_utils.cuh`.  The dimension/stride
sequences are given as lists of length `num_dims`; the reversal feeds the
innermost pair to the loop first, exactly as the `for (d = num_dims-1; ...)`
loop does. -/
def get_strided_index (i : Nat) (dims strides : List Nat) : Nat :=
  stridedLoop i ((dims.zip strides).reverse)

/-- Row-major unraveling of a flat index, innermost dimension first: the
reference computation's multi-index.  The input list is the shape reversed
(innermost dimension at the head); the output is the multi-index reversed. -/
def unravelAux : Nat → List Nat → List Nat
  | _, [] => []
  | i, d :: ds => (i % d) :: unravelAux (i / d) ds

/-- The reference row-major multi-index of `i` against `dims` (outermost
dimension first, like the shape itself). -/
def unravelIndex (i : Nat) (dims : List Nat) : List Nat :=
  (unravelAux i dims.reverse).reverse

/-- Dot product of two lists of naturals. -/
def dotList : List Nat → List Nat → Nat
  | a :: as, b :: bs => a * b + dotList as bs
  | _, _ => 0

theorem stridedLoop_append (i : Nat) (l m : List (Nat × Nat)) :
    stridedLoop i (l ++ m) =
      stridedLoop i l + stridedLoop (i / (l.map Prod.fst).prod) m := by
  induction l generalizing i with
  | nil => simp [stridedLoop]
  | cons p l ih =>
    simp only [List.cons_append, stridedLoop, List.map_cons, List.prod_cons, List.append_eq]
    rw [ih, Nat.div_div_eq_div_mul, Nat.add_assoc]

theorem unravelAux_append (i : Nat) (l : List Nat) (d : Nat) :
    unravelAux i (l ++ [d]) = unravelAux i l ++ [(i / l.prod) % d] := by
  induction l generalizing i with
  | nil => simp [unravelAux]
  | cons a l ih =>
    simp only [List.cons_append, unravelAux, List.prod_cons, List.append_eq]
    rw [ih, Nat.div_div_eq_div_mul]

theorem get_strided_index_eq_dot (i : Nat) (dims strides : List Nat)
    (hlen : dims.length = strides.length) :
    get_strided_index i dims strides = dotList (unravelIndex i dims) strides := by
  induction dims generalizing strides i with
  | nil =>
    cases strides with
    | nil => rfl
    | cons s ss => simp at hlen
  | cons d ds ih =>
    cases strides with
    | nil => simp at hlen
    | cons s ss =>
      have hl : ds.length = ss.length := by simpa using hlen
      have hfst : ((ds.zip ss).map Prod.fst) = ds := List.map_fst_zip ds ss (le_of_eq hl)
      have hrev : ((d :: ds).zip (s :: ss)).reverse = (ds.zip ss).reverse ++ [(d, s)] := by
        simp [List.zip_cons_cons]
      have hprod : (((ds.zip ss).reverse.map Prod.fst)).prod = ds.prod := by
        rw [List.map_reverse, List.prod_reverse, hfst]
      have hun : unravelIndex i (d :: ds) =
          ((i / ds.prod) % d) :: unravelIndex i ds := by
        unfold unravelIndex
        rw [show (d :: ds).reverse = ds.reverse ++ [d] by simp,
          unravelAux_append, List.prod_reverse]
        simp
      rw [get_strided_index, hrev, stridedLoop_append, hprod, hun]
      simp only [dotList, stridedLoop]
      rw [← ih i ss hl]
      simp [get_strided_index, Nat.add_comm]

/-- Claim C1: for every flat index below `numel = product(shape)` and every
pair of equal-length shape/stride sequences, the strided index resolver
returns the dot product of the row-major multi-index of the flat index
(unraveled innermost-first with a running remainder) with the strides. -/
theorem get_strided_index_correct (i : Nat) (dims strides : List Nat)
    (hlen : dims.length = strides.length) (hi : i < dims.prod) :
    get_strided_index i dims strides = dotList (unravelIndex i dims) strides :=
  get_strided_index_eq_dot i dims strides hlen

/-- Witness for C1 at a concrete input: shape `[2, 3, 4]`, strides `[12, 4, 1]`
(contiguous), flat index 17 resolves to offset 17, equal to the reference
dot product. -/
theorem get_strided_index_correct_witness :
    ([2, 3, 4] : List Nat).length = ([12, 4, 1] : List Nat).length ∧
      17 < ([2, 3, 4] : List Nat).prod ∧
      get_strided_index 17 [2, 3, 4] [12, 4, 1] =
        dotList (unravelIndex 17 [2, 3, 4]) [12, 4, 1] :=
  ⟨by decide, by decide,
    get_strided_index_correct 17 [2, 3, 4] [12, 4, 1] (by decide) (by decide)⟩

/-! ### 2D pooling: operator descriptor and index maps (`binary_div.cu`, `Pool2dOp`) -/

/-- The pooling operator descriptor `Pool2dOp` of `binary_div.cu`. -/
structure Pool2dOp where
  kernel : Nat
  stride : Nat
  padding : Nat
  batch : Nat
  chan : Nat
  h_in : Nat
  h_out : Nat
  w_in : Nat
  w_out : Nat

/-- Output element count `op.batch * op.chan * op.h_out * op.w_out` used by the
forward kernels' bounds check. -/
def Pool2dOp.numelOut (op : Pool2dOp) : Nat := op.batch * op.chan * op.h_out * op.w_out

/-- Input element count `op.batch * op.chan * op.h_in * op.w_in` used by the
backward kernels' bounds check. -/
def Pool2dOp.numelIn (op : Pool2dOp) : Nat := op.batch * op.chan * op.h_in * op.w_in

/-- The div/mod decomposition of a flat output index into `(b, c, oh, ow)`
performed at the top of every pooling forward kernel. -/
def decodeOut (op : Pool2dOp) (i : Nat) : Nat × Nat × Nat × Nat :=
  ((i / op.w_out / op.h_out / op.chan) % op.batch,
    (i / op.w_out / op.h_out) % op.chan,
    (i / op.w_out) % op.h_out,
    i % op.w_out)

/-- The div/mod decomposition of a flat input index into `(b, c, y, x)`
performed at the top of every pooling backward kernel. -/
def decodeIn (op : Pool2dOp) (i : Nat) : Nat × Nat × Nat × Nat :=
  ((i / op.w_in / op.h_in / op.chan) % op.batch,
    (i / op.w_in / op.h_in) % op.chan,
    (i / op.w_in) % op.h_in,
    i % op.w_in)

/-- Forward kernels' height-direction skip tests for window offset `k1` at
output row `oh`: the padded coordinate `oh*stride + k1` must not lie in the
padding (`< padding`) and the unpadded coordinate must be `< h_in`. -/
def inWindowH (op : Pool2dOp) (oh k1 : Nat) : Bool :=
  decide (op.padding ≤ oh * op.stride + k1) &&
    decide (oh * op.stride + k1 - op.padding < op.h_in)

/-- Forward kernels' width-direction skip tests for window offset `k2` at
output column `ow`. -/
def inWindowW (op : Pool2dOp) (ow k2 : Nat) : Bool :=
  decide (op.padding ≤ ow * op.stride + k2) &&
    decide (ow * op.stride + k2 - op.padding < op.w_in)

/-- The strided 4-d input offset `b*inp_strides[0] + c*inp_strides[1] +
y*inp_strides[2] + x*inp_strides[3]` computed by the forward kernels. -/
def inpIndex (is : Nat → Nat) (b c y x : Nat) : Nat :=
  b * is 0 + c * is 1 + y * is 2 + x * is 3

/-- The strided 4-d output offset `b*out_strides[0] + c*out_strides[1] +
oh*out_strides[2] + ow*out_strides[3]` computed by the backward kernels. -/
def outIndex (os : Nat → Nat) (b c oh ow : Nat) : Nat :=
  b * os 0 + c * os 1 + oh * os 2 + ow * os 3

/-- Backward kernels' height-direction candidate checks for window offset `k1`
at input row `y`: `y + padding` must not underflow below `k1`, the difference
must divide evenly by `stride`, and the quotient must be `< h_out`. -/
def bwdCheckH (op : Pool2dOp) (y k1 : Nat) : Bool :=
  decide (k1 ≤ y + op.padding) &&
    decide ((y + op.padding - k1) % op.stride = 0) &&
    decide ((y + op.padding - k1) / op.stride < op.h_out)

/-- Backward kernels' height-direction candidate output row
`(y + padding - k1) / stride`. -/
def bwdOh (op : Pool2dOp) (y k1 : Nat) : Nat := (y + op.padding - k1) / op.stride

/-- Backward kernels' width-direction candidate checks for window offset `k2`
at input column `x`. -/
def bwdCheckW (op : Pool2dOp) (x k2 : Nat) : Bool :=
  decide (k2 ≤ x + op.padding) &&
    decide ((x + op.padding - k2) % op.stride = 0) &&
    decide ((x + op.padding - k2) / op.stride < op.w_out)

/-- Backward kernels' width-direction candidate output column
`(x + padding - k2) / stride`. -/
def bwdOw (op : Pool2dOp) (x k2 : Nat) : Nat := (x + op.padding - k2) / op.stride

/-- Forward window coverage: at output position `(oh, ow)` the window offset
`(k1, k2)` survives the forward skip tests and reads input position `(y, x)`. -/
def fwdReads (op : Pool2dOp) (oh ow k1 k2 y x : Nat) : Prop :=
  inWindowH op oh k1 = true ∧ inWindowW op ow k2 = true ∧
    oh * op.stride + k1 - op.padding = y ∧ ow * op.stride + k2 - op.padding = x

theorem bwdCheckH_iff (op : Pool2dOp) (hs : 0 < op.stride) (y k1 oh : Nat)
    (hy : y < op.h_in) :
    (bwdCheckH op y k1 = true ∧ bwdOh op y k1 = oh) ↔
      (oh < op.h_out ∧ inWindowH op oh k1 = true ∧
        oh * op.stride + k1 - op.padding = y) := by
  simp only [bwdCheckH, bwdOh, inWindowH, Bool.and_eq_true, decide_eq_true_eq]
  constructor
  · rintro ⟨⟨⟨h1, h2⟩, h3⟩, rfl⟩
    have hdvd : op.stride ∣ (y + op.padding - k1) := Nat.dvd_of_mod_eq_zero h2
    have hms : (y + op.padding - k1) / op.stride * op.stride = y + op.padding - k1 :=
      Nat.div_mul_cancel hdvd
    exact ⟨h3, ⟨by omega, by omega⟩, by omega⟩
  · rintro ⟨h1, ⟨h2, h3⟩, h4⟩
    have hyp : y + op.padding - k1 = oh * op.stride := by omega
    have hdiv : (y + op.padding - k1) / op.stride = oh := by
      rw [hyp]; exact Nat.mul_div_cancel oh hs
    refine ⟨⟨⟨by omega, ?_⟩, ?_⟩, hdiv⟩
    · rw [hyp]; exact Nat.mul_mod_left oh op.stride
    · rw [hdiv]; exact h1

theorem bwdCheckW_iff (op : Pool2dOp) (hs : 0 < op.stride) (x k2 ow : Nat)
    (hx : x < op.w_in) :
    (bwdCheckW op x k2 = true ∧ bwdOw op x k2 = ow) ↔
      (ow < op.w_out ∧ inWindowW op ow k2 = true ∧
        ow * op.stride + k2 - op.padding = x) := by
  simp only [bwdCheckW, bwdOw, inWindowW, Bool.and_eq_true, decide_eq_true_eq]
  constructor
  · rintro ⟨⟨⟨h1, h2⟩, h3⟩, rfl⟩
    have hdvd : op.stride ∣ (x + op.padding - k2) := Nat.dvd_of_mod_eq_zero h2
    have hms : (x + op.padding - k2) / op.stride * op.stride = x + op.padding - k2 :=
      Nat.div_mul_cancel hdvd
    exact ⟨h3, ⟨by omega, by omega⟩, by omega⟩
  · rintro ⟨h1, ⟨h2, h3⟩, h4⟩
    have hyp : x + op.padding - k2 = ow * op.stride := by omega
    have hdiv : (x + op.padding - k2) / op.stride = ow := by
      rw [hyp]; exact Nat.mul_div_cancel ow hs
    refine ⟨⟨⟨by omega, ?_⟩, ?_⟩, hdiv⟩
    · rw [hyp]; exact Nat.mul_mod_left ow op.stride
    · rw [hdiv]; exact h1

/-- Claim C2: with `stride > 0`, for every input position `(y, x)` and window
offset `(k1, k2)`, the backward loop's candidate output coordinate passes its
three checks (in both directions) with candidate `(oh, ow)` if and only if the
forward pass at output `(oh, ow)` (a valid output position) reads input
`(y, x)` through window offset `(k1, k2)`; consequently the set of output
positions visited by the backward loop over all window offsets is exactly the
set of output positions whose forward window covered this input element. -/
theorem pool2d_backward_visit_correct (op : Pool2dOp) (hs : 0 < op.stride)
    (y x k1 k2 : Nat) (hy : y < op.h_in) (hx : x < op.w_in) :
    (∀ oh ow,
      ((bwdCheckH op y k1 = true ∧ bwdOh op y k1 = oh) ∧
        (bwdCheckW op x k2 = true ∧ bwdOw op x k2 = ow)) ↔
      (oh < op.h_out ∧ ow < op.w_out ∧ fwdReads op oh ow k1 k2 y x)) ∧
    (∀ oh ow,
      (∃ j1 < op.kernel, ∃ j2 < op.kernel,
        (bwdCheckH op y j1 = true ∧ bwdOh op y j1 = oh) ∧
        (bwdCheckW op x j2 = true ∧ bwdOw op x j2 = ow)) ↔
      (∃ j1 < op.kernel, ∃ j2 < op.kernel,
        oh < op.h_out ∧ ow < op.w_out ∧ fwdReads op oh ow j1 j2 y x)) := by
  have key : ∀ j1 j2 oh ow,
      ((bwdCheckH op y j1 = true ∧ bwdOh op y j1 = oh) ∧
        (bwdCheckW op x j2 = true ∧ bwdOw op x j2 = ow)) ↔
      (oh < op.h_out ∧ ow < op.w_out ∧ fwdReads op oh ow j1 j2 y x) := by
    intro j1 j2 oh ow
    rw [bwdCheckH_iff op hs y j1 oh hy, bwdCheckW_iff op hs x j2 ow hx]
    unfold fwdReads
    tauto
  refine ⟨fun oh ow => key k1 k2 oh ow, fun oh ow => ?_⟩
  constructor
  · rintro ⟨j1, hj1, j2, hj2, h⟩
    exact ⟨j1, hj1, j2, hj2, (key j1 j2 oh ow).mp h⟩
  · rintro ⟨j1, hj1, j2, hj2, h⟩
    exact ⟨j1, hj1, j2, hj2, (key j1 j2 oh ow).mpr h⟩

/-- Example descriptor: kernel 2, stride 1, padding 0, single batch and
channel, 3x3 input, 2x2 output (consistent with the pooling size formula). -/
def exOpA : Pool2dOp where
  kernel := 2
  stride := 1
  padding := 0
  batch := 1
  chan := 1
  h_in := 3
  h_out := 2
  w_in := 3
  w_out := 2

/-- Witness for C2 at a concrete descriptor: kernel 2, stride 1, padding 0,
input 3x3, output 2x2, input position `(1, 1)`, offset `(0, 0)`. -/
theorem pool2d_backward_visit_correct_witness :
    ((bwdCheckH exOpA 1 0 = true ∧ bwdOh exOpA 1 0 = 1) ∧
      (bwdCheckW exOpA 1 0 = true ∧ bwdOw exOpA 1 0 = 1)) ↔
    (1 < exOpA.h_out ∧ 1 < exOpA.w_out ∧ fwdReads exOpA 1 1 0 0 1 1) :=
  (pool2d_backward_visit_correct exOpA (by decide) 1 1 0 0 (by decide) (by decide)).1 1 1

/-! ### Pooling forward kernels -/

/-- The input value read by a forward kernel at output `(b, c, oh, ow)` and
window offset `(k1, k2)`: the input at unpadded coordinates
`(oh*stride + k1 - padding, ow*stride + k2 - padding)` through the input
strides. -/
def windowInp (op : Pool2dOp) (is : Nat → Nat) (inp : Nat → ℚ) (b c oh ow k1 k2 : Nat) : ℚ :=
  inp (inpIndex is b c (oh * op.stride + k1 - op.padding) (ow * op.stride + k2 - op.padding))

/-- Body of `avg_pool2d_forward` at output coordinates `(b, c, oh, ow)`:
sum the surviving window values, then divide by the nominal area
`kernel * kernel`. -/
def avgPoolVal (op : Pool2dOp) (is : Nat → Nat) (inp : Nat → ℚ) (b c oh ow : Nat) : ℚ :=
  (∑ k1 ∈ Finset.range op.kernel, ∑ k2 ∈ Finset.range op.kernel,
      if inWindowH op oh k1 && inWindowW op ow k2 then
        windowInp op is inp b c oh ow k1 k2 else 0) /
    ((op.kernel * op.kernel : Nat) : ℚ)

/-- `avg_pool2d_forward`: the value the kernel stores at the raw flat output
index `i` (the store target is `out[i]` itself; `out_strides` is accepted but
never read). -/
def avg_pool2d_forward (op : Pool2dOp) (inp_strides out_strides : Nat → Nat)
    (inp : Nat → ℚ) (i : Nat) : ℚ :=
  avgPoolVal op inp_strides inp (decodeOut op i).1 (decodeOut op i).2.1
    (decodeOut op i).2.2.1 (decodeOut op i).2.2.2

/-- Body of `max_pool2d_forward` at output coordinates: running maximum over
the surviving window values, seeded at `-INFINITY` (modelled by `⊥` of
`WithBot ℚ`); skipped offsets contribute the seed. -/
def maxPoolVal (op : Pool2dOp) (is : Nat → Nat) (inp : Nat → ℚ) (b c oh ow : Nat) :
    WithBot ℚ :=
  (Finset.range op.kernel).sup fun k1 =>
    (Finset.range op.kernel).sup fun k2 =>
      if inWindowH op oh k1 && inWindowW op ow k2 then
        ((windowInp op is inp b c oh ow k1 k2 : ℚ) : WithBot ℚ) else ⊥

/-- `max_pool2d_forward`: value stored at the raw flat output index `i`. -/
def max_pool2d_forward (op : Pool2dOp) (inp_strides out_strides : Nat → Nat)
    (inp : Nat → ℚ) (i : Nat) : WithBot ℚ :=
  maxPoolVal op inp_strides inp (decodeOut op i).1 (decodeOut op i).2.1
    (decodeOut op i).2.2.1 (decodeOut op i).2.2.2

/-- Body of `min_pool2d_forward` at output coordinates: running minimum seeded
at `INFINITY` (modelled by `⊤` of `WithTop ℚ`). -/
def minPoolVal (op : Pool2dOp) (is : Nat → Nat) (inp : Nat → ℚ) (b c oh ow : Nat) :
    WithTop ℚ :=
  (Finset.range op.kernel).inf fun k1 =>
    (Finset.range op.kernel).inf fun k2 =>
      if inWindowH op oh k1 && inWindowW op ow k2 then
        ((windowInp op is inp b c oh ow k1 k2 : ℚ) : WithTop ℚ) else ⊤

/-- `min_pool2d_forward`: value stored at the raw flat output index `i`. -/
def min_pool2d_forward (op : Pool2dOp) (inp_strides out_strides : Nat → Nat)
    (inp : Nat → ℚ) (i : Nat) : WithTop ℚ :=
  minPoolVal op inp_strides inp (decodeOut op i).1 (decodeOut op i).2.1
    (decodeOut op i).2.2.1 (decodeOut op i).2.2.2

/-- Claim C3: the avg-pool forward output is the sum of the in-bounds
(non-padding) window values divided by the fixed nominal area
`kernel * kernel`; hence on an all-ones input a fully in-bounds window yields
exactly 1 and a window with at least one skipped (padding/out-of-bounds)
offset yields a value strictly less than 1. -/
theorem avg_pool2d_forward_fixed_divisor (op : Pool2dOp) (is os : Nat → Nat)
    (inp : Nat → ℚ) (i b c oh ow : Nat) (hdec : decodeOut op i = (b, c, oh, ow))
    (hK : 0 < op.kernel) :
    avg_pool2d_forward op is os inp i =
      (∑ q ∈ (Finset.range op.kernel ×ˢ Finset.range op.kernel).filter
          (fun q => inWindowH op oh q.1 && inWindowW op ow q.2),
        windowInp op is inp b c oh ow q.1 q.2) / ((op.kernel * op.kernel : Nat) : ℚ) ∧
    ((∀ k1 < op.kernel, ∀ k2 < op.kernel,
        inWindowH op oh k1 = true ∧ inWindowW op ow k2 = true) →
      avg_pool2d_forward op is os (fun _ => 1) i = 1) ∧
    ((∃ k1 < op.kernel, ∃ k2 < op.kernel,
        ¬(inWindowH op oh k1 = true ∧ inWindowW op ow k2 = true)) →
      avg_pool2d_forward op is os (fun _ => 1) i < 1) := by
  have hKK : (0 : ℚ) < ((op.kernel * op.kernel : Nat) : ℚ) := by
    exact_mod_cast Nat.mul_pos hK hK
  have hcard : (Finset.range op.kernel ×ˢ Finset.range op.kernel).card =
      op.kernel * op.kernel := by
    rw [Finset.card_product, Finset.card_range]
  unfold avg_pool2d_forward
  rw [hdec]
  dsimp only
  refine ⟨?_, ?_, ?_⟩
  · unfold avgPoolVal
    rw [Finset.sum_filter, Finset.sum_product]
  · intro hall
    unfold avgPoolVal
    have hone : ∀ k1 ∈ Finset.range op.kernel, ∀ k2 ∈ Finset.range op.kernel,
        (if inWindowH op oh k1 && inWindowW op ow k2 then
          windowInp op is (fun _ => 1) b c oh ow k1 k2 else 0) = 1 := by
      intro k1 hk1 k2 hk2
      obtain ⟨h1, h2⟩ := hall k1 (Finset.mem_range.mp hk1) k2 (Finset.mem_range.mp hk2)
      rw [if_pos (by rw [h1, h2]; rfl)]
      rfl
    rw [Finset.sum_congr rfl fun k1 hk1 =>
      Finset.sum_congr rfl fun k2 hk2 => hone k1 hk1 k2 hk2]
    simp only [Finset.sum_const, Finset.card_range, nsmul_eq_mul, mul_one]
    rw [← Nat.cast_mul, div_self (ne_of_gt hKK)]
  · rintro ⟨k1, hk1, k2, hk2, hnot⟩
    unfold avgPoolVal
    have hval : ∀ k1 k2, windowInp op is (fun _ => (1 : ℚ)) b c oh ow k1 k2 = 1 :=
      fun _ _ => rfl
    have hsum : (∑ j1 ∈ Finset.range op.kernel, ∑ j2 ∈ Finset.range op.kernel,
        if inWindowH op oh j1 && inWindowW op ow j2 then
          windowInp op is (fun _ => 1) b c oh ow j1 j2 else 0) =
        (((Finset.range op.kernel ×ˢ Finset.range op.kernel).filter
          (fun q => inWindowH op oh q.1 && inWindowW op ow q.2)).card : ℚ) := by
      rw [← Finset.sum_product']
      simp only [hval]
      rw [Finset.sum_boole]
    rw [hsum]
    have hss : (Finset.range op.kernel ×ˢ Finset.range op.kernel).filter
        (fun q => inWindowH op oh q.1 && inWindowW op ow q.2) ⊂
        Finset.range op.kernel ×ˢ Finset.range op.kernel := by
      refine Finset.filter_ssubset.mpr ⟨(k1, k2), ?_, ?_⟩
      · exact Finset.mem_product.mpr ⟨Finset.mem_range.mpr hk1, Finset.mem_range.mpr hk2⟩
      · simp only [Bool.and_eq_true]
        exact hnot
    have hlt : (((Finset.range op.kernel ×ˢ Finset.range op.kernel).filter
        (fun q => inWindowH op oh q.1 && inWindowW op ow q.2)).card : ℚ) <
        ((op.kernel * op.kernel : Nat) : ℚ) := by
      exact_mod_cast hcard ▸ Finset.card_lt_card hss
    exact (div_lt_one hKK).mpr hlt

/-- Witness for C3: on descriptor `exOpA` (3x3 input, kernel 2, stride 1, no
padding) with an all-ones input, output position 0 has a fully in-bounds
window and evaluates to exactly 1. -/
theorem avg_pool2d_forward_fixed_divisor_witness :
    avg_pool2d_forward exOpA (fun d => [9, 9, 3, 1].getD d 0)
      (fun d => [4, 4, 2, 1].getD d 0) (fun _ => 1) 0 = 1 :=
  (avg_pool2d_forward_fixed_divisor exOpA (fun d => [9, 9, 3, 1].getD d 0)
    (fun d => [4, 4, 2, 1].getD d 0) (fun _ => 1) 0 0 0 0 0 (by decide)
    (by decide)).2.1 (by decide)

/-- Claim C10: when every offset of an output position's window is skipped
(entirely padding or out of bounds), the forward kernels still produce their
seed values: avg-pool outputs 0 (empty sum over the fixed divisor), max-pool
outputs `-INFINITY` (`⊥`), min-pool outputs `INFINITY` (`⊤`). -/
theorem pool2d_forward_empty_window (op : Pool2dOp) (is os : Nat → Nat)
    (inp : Nat → ℚ) (i b c oh ow : Nat) (hdec : decodeOut op i = (b, c, oh, ow))
    (hK : 0 < op.kernel)
    (hempty : ∀ k1 < op.kernel, ∀ k2 < op.kernel,
      ¬(inWindowH op oh k1 = true ∧ inWindowW op ow k2 = true)) :
    avg_pool2d_forward op is os inp i = 0 ∧
    max_pool2d_forward op is os inp i = ⊥ ∧
    min_pool2d_forward op is os inp i = ⊤ := by
  have hguard : ∀ k1 ∈ Finset.range op.kernel, ∀ k2 ∈ Finset.range op.kernel,
      ¬(inWindowH op oh k1 && inWindowW op ow k2) = true := by
    intro k1 hk1 k2 hk2
    simp only [Bool.and_eq_true]
    exact hempty k1 (Finset.mem_range.mp hk1) k2 (Finset.mem_range.mp hk2)
  refine ⟨?_, ?_, ?_⟩
  · unfold avg_pool2d_forward
    rw [hdec]
    dsimp only
    unfold avgPoolVal
    rw [Finset.sum_eq_zero fun k1 hk1 =>
      Finset.sum_eq_zero fun k2 hk2 => if_neg (hguard k1 hk1 k2 hk2)]
    exact zero_div _
  · unfold max_pool2d_forward
    rw [hdec]
    dsimp only
    unfold maxPoolVal
    refine le_bot_iff.mp (Finset.sup_le fun k1 hk1 => Finset.sup_le fun k2 hk2 => ?_)
    rw [if_neg (hguard k1 hk1 k2 hk2)]
  · unfold min_pool2d_forward
    rw [hdec]
    dsimp only
    unfold minPoolVal
    refine top_le_iff.mp (Finset.le_inf fun k1 hk1 => Finset.le_inf fun k2 hk2 => ?_)
    rw [if_neg (hguard k1 hk1 k2 hk2)]

/-- Example descriptor with a padding-only window: kernel 2, stride 1,
padding 2, 1x1 input, 4x4 output (floor((1 + 4 - 2)/1) + 1 = 4); output
position `(3, 3)` (flat index 15) has every window offset out of bounds. -/
def exOpPad : Pool2dOp where
  kernel := 2
  stride := 1
  padding := 2
  batch := 1
  chan := 1
  h_in := 1
  h_out := 4
  w_in := 1
  w_out := 4

/-- Witness for C10: on `exOpPad`, output flat index 15 decodes to position
`(3, 3)`, whose window is entirely out of bounds; all three forward kernels
produce their seeds there. -/
theorem pool2d_forward_empty_window_witness :
    avg_pool2d_forward exOpPad (fun d => [1, 1, 1, 1].getD d 0)
        (fun d => [16, 16, 4, 1].getD d 0) (fun _ => 7) 15 = 0 ∧
      max_pool2d_forward exOpPad (fun d => [1, 1, 1, 1].getD d 0)
        (fun d => [16, 16, 4, 1].getD d 0) (fun _ => 7) 15 = ⊥ ∧
      min_pool2d_forward exOpPad (fun d => [1, 1, 1, 1].getD d 0)
        (fun d => [16, 16, 4, 1].getD d 0) (fun _ => 7) 15 = ⊤ :=
  pool2d_forward_empty_window exOpPad (fun d => [1, 1, 1, 1].getD d 0)
    (fun d => [16, 16, 4, 1].getD d 0) (fun _ => 7) 15 0 0 3 3 (by decide) (by decide)
    (by decide)

/-! ### Pooling backward kernels: window-loop bodies -/

instance decFwdReads (op : Pool2dOp) (oh ow k1 k2 y x : Nat) :
    Decidable (fwdReads op oh ow k1 k2 y x) := by
  unfold fwdReads
  infer_instance

/-- Body of the avg-pool backward window loop at input coordinates
`(b, c, y, x)`: accumulate `grad_out` at every candidate output position that
passes the backward checks, then divide by the nominal area. -/
def avgBwdContrib (op : Pool2dOp) (os : Nat → Nat) (g : Nat → ℚ) (b c y x : Nat) : ℚ :=
  (∑ k1 ∈ Finset.range op.kernel, ∑ k2 ∈ Finset.range op.kernel,
      if bwdCheckH op y k1 && bwdCheckW op x k2 then
        g (outIndex os b c (bwdOh op y k1) (bwdOw op x k2)) else 0) /
    ((op.kernel * op.kernel : Nat) : ℚ)

/-- Body of the max-pool backward window loop at input coordinates, where
`v = inp[i]` is this input's forward value: `grad_out` at a passing candidate
output is accumulated exactly when the stored forward output there equals
`v`. -/
def maxBwdContrib (op : Pool2dOp) (os : Nat → Nat) (out : Nat → WithBot ℚ)
    (g : Nat → ℚ) (v : ℚ) (b c y x : Nat) : ℚ :=
  ∑ k1 ∈ Finset.range op.kernel, ∑ k2 ∈ Finset.range op.kernel,
    if bwdCheckH op y k1 && bwdCheckW op x k2 &&
        decide (out (outIndex os b c (bwdOh op y k1) (bwdOw op x k2)) = (v : WithBot ℚ)) then
      g (outIndex os b c (bwdOh op y k1) (bwdOw op x k2)) else 0

/-- Body of the min-pool backward window loop; identical to the max case but
the stored outputs live in `WithTop ℚ` (seeded at `INFINITY`). -/
def minBwdContrib (op : Pool2dOp) (os : Nat → Nat) (out : Nat → WithTop ℚ)
    (g : Nat → ℚ) (v : ℚ) (b c y x : Nat) : ℚ :=
  ∑ k1 ∈ Finset.range op.kernel, ∑ k2 ∈ Finset.range op.kernel,
    if bwdCheckH op y k1 && bwdCheckW op x k2 &&
        decide (out (outIndex os b c (bwdOh op y k1) (bwdOw op x k2)) = (v : WithTop ℚ)) then
      g (outIndex os b c (bwdOh op y k1) (bwdOw op x k2)) else 0

/-- Reference formulation of max-pool backward, following the spec's words:
sum `grad_out` over every valid output position whose forward window covered
this input position and whose stored forward value equals `v`; each such
output contributes its full `grad_out`, with no splitting among ties. -/
def maxBwdRef (op : Pool2dOp) (os : Nat → Nat) (out : Nat → WithBot ℚ)
    (g : Nat → ℚ) (v : ℚ) (b c y x : Nat) : ℚ :=
  ∑ oh ∈ Finset.range op.h_out, ∑ ow ∈ Finset.range op.w_out,
    if (∃ k1 < op.kernel, ∃ k2 < op.kernel, fwdReads op oh ow k1 k2 y x) ∧
        out (outIndex os b c oh ow) = (v : WithBot ℚ) then
      g (outIndex os b c oh ow) else 0

/-- Reference formulation of min-pool backward (see `maxBwdRef`). -/
def minBwdRef (op : Pool2dOp) (os : Nat → Nat) (out : Nat → WithTop ℚ)
    (g : Nat → ℚ) (v : ℚ) (b c y x : Nat) : ℚ :=
  ∑ oh ∈ Finset.range op.h_out, ∑ ow ∈ Finset.range op.w_out,
    if (∃ k1 < op.kernel, ∃ k2 < op.kernel, fwdReads op oh ow k1 k2 y x) ∧
        out (outIndex os b c oh ow) = (v : WithTop ℚ) then
      g (outIndex os b c oh ow) else 0

theorem inWindowH_le (op : Pool2dOp) (oh k1 : Nat) (h : inWindowH op oh k1 = true) :
    op.padding ≤ oh * op.stride + k1 ∧ oh * op.stride + k1 - op.padding < op.h_in := by
  simpa [inWindowH, Bool.and_eq_true, decide_eq_true_eq] using h

theorem inWindowW_le (op : Pool2dOp) (ow k2 : Nat) (h : inWindowW op ow k2 = true) :
    op.padding ≤ ow * op.stride + k2 ∧ ow * op.stride + k2 - op.padding < op.w_in := by
  simpa [inWindowW, Bool.and_eq_true, decide_eq_true_eq] using h

/-- The backward window loop, summed over any per-output weight `F`, equals
the same sum over the output positions whose forward window covers the input
position: the change of variables `(k1, k2) ↦ (oh, ow)` between passing
window offsets and covered output positions is a bijection. -/
theorem bwd_window_sum_eq_cover_sum (op : Pool2dOp) (hs : 0 < op.stride)
    (y x : Nat) (hy : y < op.h_in) (hx : x < op.w_in) (F : Nat → Nat → ℚ) :
    (∑ k1 ∈ Finset.range op.kernel, ∑ k2 ∈ Finset.range op.kernel,
        if bwdCheckH op y k1 && bwdCheckW op x k2 then
          F (bwdOh op y k1) (bwdOw op x k2) else 0) =
      ∑ oh ∈ Finset.range op.h_out, ∑ ow ∈ Finset.range op.w_out,
        if ∃ k1 < op.kernel, ∃ k2 < op.kernel, fwdReads op oh ow k1 k2 y x then
          F oh ow else 0 := by
  rw [← Finset.sum_product', ← Finset.sum_product', ← Finset.sum_filter, ← Finset.sum_filter]
  refine Finset.sum_nbij' (fun q => (bwdOh op y q.1, bwdOw op x q.2))
    (fun r => (y + op.padding - r.1 * op.stride, x + op.padding - r.2 * op.stride))
    ?_ ?_ ?_ ?_ ?_
  · rintro ⟨q1, q2⟩ hq
    obtain ⟨hqp, hqc⟩ := Finset.mem_filter.mp hq
    obtain ⟨hq1, hq2⟩ := Finset.mem_product.mp hqp
    rw [Bool.and_eq_true] at hqc
    obtain ⟨hoh, hwh, hey⟩ := (bwdCheckH_iff op hs y q1 (bwdOh op y q1) hy).mp ⟨hqc.1, rfl⟩
    obtain ⟨how, hww, hex⟩ := (bwdCheckW_iff op hs x q2 (bwdOw op x q2) hx).mp ⟨hqc.2, rfl⟩
    refine Finset.mem_filter.mpr ⟨Finset.mem_product.mpr
      ⟨Finset.mem_range.mpr hoh, Finset.mem_range.mpr how⟩, ?_⟩
    exact ⟨q1, Finset.mem_range.mp hq1, q2, Finset.mem_range.mp hq2, hwh, hww, hey, hex⟩
  · rintro ⟨r1, r2⟩ hr
    obtain ⟨hrp, k1, hk1, k2, hk2, hwh, hww, hey, hex⟩ := Finset.mem_filter.mp hr
    obtain ⟨hr1, hr2⟩ := Finset.mem_product.mp hrp
    dsimp only at hwh hww hey hex hr1 hr2
    have h1 := inWindowH_le op r1 k1 hwh
    have h2 := inWindowW_le op r2 k2 hww
    have hk1e : y + op.padding - r1 * op.stride = k1 := by omega
    have hk2e : x + op.padding - r2 * op.stride = k2 := by omega
    have hc1 := (bwdCheckH_iff op hs y k1 r1 hy).mpr ⟨Finset.mem_range.mp hr1, hwh, hey⟩
    have hc2 := (bwdCheckW_iff op hs x k2 r2 hx).mpr ⟨Finset.mem_range.mp hr2, hww, hex⟩
    refine Finset.mem_filter.mpr ⟨Finset.mem_product.mpr ?_, ?_⟩
    · constructor
      · simpa [hk1e] using Finset.mem_range.mpr hk1
      · simpa [hk2e] using Finset.mem_range.mpr hk2
    · rw [Bool.and_eq_true]
      constructor
      · simpa [hk1e] using hc1.1
      · simpa [hk2e] using hc2.1
  · rintro ⟨q1, q2⟩ hq
    obtain ⟨hqp, hqc⟩ := Finset.mem_filter.mp hq
    rw [Bool.and_eq_true] at hqc
    obtain ⟨hoh, hwh, hey⟩ := (bwdCheckH_iff op hs y q1 (bwdOh op y q1) hy).mp ⟨hqc.1, rfl⟩
    obtain ⟨how, hww, hex⟩ := (bwdCheckW_iff op hs x q2 (bwdOw op x q2) hx).mp ⟨hqc.2, rfl⟩
    have h1 := inWindowH_le op (bwdOh op y q1) q1 hwh
    have h2 := inWindowW_le op (bwdOw op x q2) q2 hww
    simp only [Prod.mk.injEq]
    constructor <;> omega
  · rintro ⟨r1, r2⟩ hr
    obtain ⟨hrp, k1, hk1, k2, hk2, hwh, hww, hey, hex⟩ := Finset.mem_filter.mp hr
    obtain ⟨hr1, hr2⟩ := Finset.mem_product.mp hrp
    dsimp only at hwh hww hey hex hr1 hr2
    have h1 := inWindowH_le op r1 k1 hwh
    have h2 := inWindowW_le op r2 k2 hww
    have hk1e : y + op.padding - r1 * op.stride = k1 := by omega
    have hk2e : x + op.padding - r2 * op.stride = k2 := by omega
    have hc1 := (bwdCheckH_iff op hs y k1 r1 hy).mpr ⟨Finset.mem_range.mp hr1, hwh, hey⟩
    have hc2 := (bwdCheckW_iff op hs x k2 r2 hx).mpr ⟨Finset.mem_range.mp hr2, hww, hex⟩
    simp only [Prod.mk.injEq, hk1e, hk2e]
    exact ⟨hc1.2, hc2.2⟩
  · rintro ⟨q1, q2⟩ hq
    rfl

theorem maxBwdContrib_eq_ref (op : Pool2dOp) (hs : 0 < op.stride) (os : Nat → Nat)
    (out : Nat → WithBot ℚ) (g : Nat → ℚ) (v : ℚ) (b c y x : Nat)
    (hy : y < op.h_in) (hx : x < op.w_in) :
    maxBwdContrib op os out g v b c y x = maxBwdRef op os out g v b c y x := by
  unfold maxBwdContrib maxBwdRef
  have hsplit : ∀ k1 k2,
      (if bwdCheckH op y k1 && bwdCheckW op x k2 &&
          decide (out (outIndex os b c (bwdOh op y k1) (bwdOw op x k2)) = (v : WithBot ℚ)) then
        g (outIndex os b c (bwdOh op y k1) (bwdOw op x k2)) else 0) =
      (if bwdCheckH op y k1 && bwdCheckW op x k2 then
        (if out (outIndex os b c (bwdOh op y k1) (bwdOw op x k2)) = (v : WithBot ℚ) then
          g (outIndex os b c (bwdOh op y k1) (bwdOw op x k2)) else 0) else 0) := by
    intro k1 k2
    cases hcb : (bwdCheckH op y k1 && bwdCheckW op x k2) <;> simp [hcb]
  rw [Finset.sum_congr rfl fun k1 _ => Finset.sum_congr rfl fun k2 _ => hsplit k1 k2]
  rw [bwd_window_sum_eq_cover_sum op hs y x hy hx
    (fun oh ow => if out (outIndex os b c oh ow) = (v : WithBot ℚ) then
      g (outIndex os b c oh ow) else 0)]
  refine Finset.sum_congr rfl fun oh _ => Finset.sum_congr rfl fun ow _ => ?_
  simp only [ite_and]

theorem minBwdContrib_eq_ref (op : Pool2dOp) (hs : 0 < op.stride) (os : Nat → Nat)
    (out : Nat → WithTop ℚ) (g : Nat → ℚ) (v : ℚ) (b c y x : Nat)
    (hy : y < op.h_in) (hx : x < op.w_in) :
    minBwdContrib op os out g v b c y x = minBwdRef op os out g v b c y x := by
  unfold minBwdContrib minBwdRef
  have hsplit : ∀ k1 k2,
      (if bwdCheckH op y k1 && bwdCheckW op x k2 &&
          decide (out (outIndex os b c (bwdOh op y k1) (bwdOw op x k2)) = (v : WithTop ℚ)) then
        g (outIndex os b c (bwdOh op y k1) (bwdOw op x k2)) else 0) =
      (if bwdCheckH op y k1 && bwdCheckW op x k2 then
        (if out (outIndex os b c (bwdOh op y k1) (bwdOw op x k2)) = (v : WithTop ℚ) then
          g (outIndex os b c (bwdOh op y k1) (bwdOw op x k2)) else 0) else 0) := by
    intro k1 k2
    cases hcb : (bwdCheckH op y k1 && bwdCheckW op x k2) <;> simp [hcb]
  rw [Finset.sum_congr rfl fun k1 _ => Finset.sum_congr rfl fun k2 _ => hsplit k1 k2]
  rw [bwd_window_sum_eq_cover_sum op hs y x hy hx
    (fun oh ow => if out (outIndex os b c oh ow) = (v : WithTop ℚ) then
      g (outIndex os b c oh ow) else 0)]
  refine Finset.sum_congr rfl fun oh _ => Finset.sum_congr rfl fun ow _ => ?_
  simp only [ite_and]

/-! ### Pooling backward kernels: launches over buffer states -/

/-- Avg-pool backward window contribution at the flat input index `i`,
decoded to `(b, c, y, x)` exactly as the kernel does. -/
def avgBwdContribAt (op : Pool2dOp) (os : Nat → Nat) (g : Nat → ℚ) (i : Nat) : ℚ :=
  avgBwdContrib op os g (decodeIn op i).1 (decodeIn op i).2.1
    (decodeIn op i).2.2.1 (decodeIn op i).2.2.2

/-- Max-pool backward window contribution at the flat input index `i`. -/
def maxBwdContribAt (op : Pool2dOp) (os : Nat → Nat) (out : Nat → WithBot ℚ)
    (g : Nat → ℚ) (v : ℚ) (i : Nat) : ℚ :=
  maxBwdContrib op os out g v (decodeIn op i).1 (decodeIn op i).2.1
    (decodeIn op i).2.2.1 (decodeIn op i).2.2.2

/-- Min-pool backward window contribution at the flat input index `i`. -/
def minBwdContribAt (op : Pool2dOp) (os : Nat → Nat) (out : Nat → WithTop ℚ)
    (g : Nat → ℚ) (v : ℚ) (i : Nat) : ℚ :=
  minBwdContrib op os out g v (decodeIn op i).1 (decodeIn op i).2.1
    (decodeIn op i).2.2.1 (decodeIn op i).2.2.2

/-- The four buffers `avg_pool2d_backward` receives: `inp`, `grad_inp`, `out`,
`grad_out` (the avg kernel reads only `grad_out` and writes only
`grad_inp`). -/
structure AvgBwdState where
  inp : Nat → ℚ
  grad_inp : Nat → ℚ
  out : Nat → ℚ
  grad_out : Nat → ℚ

/-- The four buffers `max_pool2d_backward` receives; the stored forward
outputs live in `WithBot ℚ` (the max-pool forward seed is `-INFINITY`). -/
structure MaxBwdState where
  inp : Nat → ℚ
  grad_inp : Nat → ℚ
  out : Nat → WithBot ℚ
  grad_out : Nat → ℚ

/-- The four buffers `min_pool2d_backward` receives. -/
structure MinBwdState where
  inp : Nat → ℚ
  grad_inp : Nat → ℚ
  out : Nat → WithTop ℚ
  grad_out : Nat → ℚ

/-- One thread of `avg_pool2d_backward`: thread `i` returns early when
`i >= numel`, otherwise accumulates its window contribution into
`grad_inp[i]` (`+=` on the raw flat index). -/
def avgBwdTask (op : Pool2dOp) (is os : Nat → Nat) (i : Nat) (st : AvgBwdState) :
    AvgBwdState :=
  if i < op.numelIn then
    let gi := Function.update st.grad_inp i (st.grad_inp i + avgBwdContribAt op os st.grad_out i)
    { st with grad_inp := gi }
  else st

/-- One thread of `max_pool2d_backward`: reads `inp_v = inp[i]` at the raw
flat index and accumulates into `grad_inp[i]`. -/
def maxBwdTask (op : Pool2dOp) (is os : Nat → Nat) (i : Nat) (st : MaxBwdState) :
    MaxBwdState :=
  if i < op.numelIn then
    let gi := Function.update st.grad_inp i (st.grad_inp i + maxBwdContribAt op os st.out st.grad_out (st.inp i) i)
    { st with grad_inp := gi }
  else st

/-- One thread of `min_pool2d_backward`. -/
def minBwdTask (op : Pool2dOp) (is os : Nat → Nat) (i : Nat) (st : MinBwdState) :
    MinBwdState :=
  if i < op.numelIn then
    let gi := Function.update st.grad_inp i (st.grad_inp i + minBwdContribAt op os st.out st.grad_out (st.inp i) i)
    { st with grad_inp := gi }
  else st

/-- Run the per-thread tasks `0, 1, ..., n-1` of a launch in sequence (the
order is irrelevant for these kernels: their writes are disjoint). -/
def runTasks {α : Type} (f : Nat → α → α) : Nat → α → α
  | 0, st => st
  | n + 1, st => f n (runTasks f n st)

/-- The `avg_pool2d_backward` launch: one task per flat input index. -/
def avg_pool2d_backward (op : Pool2dOp) (is os : Nat → Nat) (st : AvgBwdState) :
    AvgBwdState :=
  runTasks (avgBwdTask op is os) op.numelIn st

/-- The `max_pool2d_backward` launch. -/
def max_pool2d_backward (op : Pool2dOp) (is os : Nat → Nat) (st : MaxBwdState) :
    MaxBwdState :=
  runTasks (maxBwdTask op is os) op.numelIn st

/-- The `min_pool2d_backward` launch. -/
def min_pool2d_backward (op : Pool2dOp) (is os : Nat → Nat) (st : MinBwdState) :
    MinBwdState :=
  runTasks (minBwdTask op is os) op.numelIn st

theorem avgBwdRun_spec (op : Pool2dOp) (is os : Nat → Nat) :
    ∀ (n : Nat) (st : AvgBwdState),
      (runTasks (avgBwdTask op is os) n st).inp = st.inp ∧
      (runTasks (avgBwdTask op is os) n st).out = st.out ∧
      (runTasks (avgBwdTask op is os) n st).grad_out = st.grad_out ∧
      ∀ j, (runTasks (avgBwdTask op is os) n st).grad_inp j =
        st.grad_inp j +
          (if j < n ∧ j < op.numelIn then avgBwdContribAt op os st.grad_out j else 0) := by
  intro n
  induction n with
  | zero => exact fun st => ⟨rfl, rfl, rfl, fun j => by simp [runTasks]⟩
  | succ n ih =>
    intro st
    obtain ⟨h1, h2, h3, h4⟩ := ih st
    have hstep : runTasks (avgBwdTask op is os) (n + 1) st =
        avgBwdTask op is os n (runTasks (avgBwdTask op is os) n st) := rfl
    have htask : ∀ (s : AvgBwdState), avgBwdTask op is os n s =
        if n < op.numelIn then
          let gi := Function.update s.grad_inp n (s.grad_inp n + avgBwdContribAt op os s.grad_out n)
          let s' : AvgBwdState := { s with grad_inp := gi }
          s'
        else s := fun _ => rfl
    rw [hstep, htask]
    by_cases hn : n < op.numelIn
    · rw [if_pos hn]
      refine ⟨h1, h2, h3, fun j => ?_⟩
      show Function.update _ n _ j = _
      rw [Function.update_apply]
      by_cases hj : j = n
      · subst hj
        rw [if_pos rfl, h4 j, h3]
        simp [hn]
      · rw [if_neg hj, h4 j]
        have hiff : (j < n ∧ j < op.numelIn) ↔ (j < n + 1 ∧ j < op.numelIn) := by omega
        rw [if_congr hiff rfl rfl]
    · rw [if_neg hn]
      refine ⟨h1, h2, h3, fun j => ?_⟩
      rw [h4 j]
      have hiff : (j < n ∧ j < op.numelIn) ↔ (j < n + 1 ∧ j < op.numelIn) := by omega
      rw [if_congr hiff rfl rfl]

theorem maxBwdRun_spec (op : Pool2dOp) (is os : Nat → Nat) :
    ∀ (n : Nat) (st : MaxBwdState),
      (runTasks (maxBwdTask op is os) n st).inp = st.inp ∧
      (runTasks (maxBwdTask op is os) n st).out = st.out ∧
      (runTasks (maxBwdTask op is os) n st).grad_out = st.grad_out ∧
      ∀ j, (runTasks (maxBwdTask op is os) n st).grad_inp j =
        st.grad_inp j +
          (if j < n ∧ j < op.numelIn then
            maxBwdContribAt op os st.out st.grad_out (st.inp j) j else 0) := by
  intro n
  induction n with
  | zero => exact fun st => ⟨rfl, rfl, rfl, fun j => by simp [runTasks]⟩
  | succ n ih =>
    intro st
    obtain ⟨h1, h2, h3, h4⟩ := ih st
    have hstep : runTasks (maxBwdTask op is os) (n + 1) st =
        maxBwdTask op is os n (runTasks (maxBwdTask op is os) n st) := rfl
    have htask : ∀ (s : MaxBwdState), maxBwdTask op is os n s =
        if n < op.numelIn then
          let gi := Function.update s.grad_inp n (s.grad_inp n + maxBwdContribAt op os s.out s.grad_out (s.inp n) n)
          let s' : MaxBwdState := { s with grad_inp := gi }
          s'
        else s := fun _ => rfl
    rw [hstep, htask]
    by_cases hn : n < op.numelIn
    · rw [if_pos hn]
      refine ⟨h1, h2, h3, fun j => ?_⟩
      show Function.update _ n _ j = _
      rw [Function.update_apply]
      by_cases hj : j = n
      · subst hj
        rw [if_pos rfl, h4 j, h3, h2, h1]
        simp [hn]
      · rw [if_neg hj, h4 j]
        have hiff : (j < n ∧ j < op.numelIn) ↔ (j < n + 1 ∧ j < op.numelIn) := by omega
        rw [if_congr hiff rfl rfl]
    · rw [if_neg hn]
      refine ⟨h1, h2, h3, fun j => ?_⟩
      rw [h4 j]
      have hiff : (j < n ∧ j < op.numelIn) ↔ (j < n + 1 ∧ j < op.numelIn) := by omega
      rw [if_congr hiff rfl rfl]

theorem minBwdRun_spec (op : Pool2dOp) (is os : Nat → Nat) :
    ∀ (n : Nat) (st : MinBwdState),
      (runTasks (minBwdTask op is os) n st).inp = st.inp ∧
      (runTasks (minBwdTask op is os) n st).out = st.out ∧
      (runTasks (minBwdTask op is os) n st).grad_out = st.grad_out ∧
      ∀ j, (runTasks (minBwdTask op is os) n st).grad_inp j =
        st.grad_inp j +
          (if j < n ∧ j < op.numelIn then
            minBwdContribAt op os st.out st.grad_out (st.inp j) j else 0) := by
  intro n
  induction n with
  | zero => exact fun st => ⟨rfl, rfl, rfl, fun j => by simp [runTasks]⟩
  | succ n ih =>
    intro st
    obtain ⟨h1, h2, h3, h4⟩ := ih st
    have hstep : runTasks (minBwdTask op is os) (n + 1) st =
        minBwdTask op is os n (runTasks (minBwdTask op is os) n st) := rfl
    have htask : ∀ (s : MinBwdState), minBwdTask op is os n s =
        if n < op.numelIn then
          let gi := Function.update s.grad_inp n (s.grad_inp n + minBwdContribAt op os s.out s.grad_out (s.inp n) n)
          let s' : MinBwdState := { s with grad_inp := gi }
          s'
        else s := fun _ => rfl
    rw [hstep, htask]
    by_cases hn : n < op.numelIn
    · rw [if_pos hn]
      refine ⟨h1, h2, h3, fun j => ?_⟩
      show Function.update _ n _ j = _
      rw [Function.update_apply]
      by_cases hj : j = n
      · subst hj
        rw [if_pos rfl, h4 j, h3, h2, h1]
        simp [hn]
      · rw [if_neg hj, h4 j]
        have hiff : (j < n ∧ j < op.numelIn) ↔ (j < n + 1 ∧ j < op.numelIn) := by omega
        rw [if_congr hiff rfl rfl]
    · rw [if_neg hn]
      refine ⟨h1, h2, h3, fun j => ?_⟩
      rw [h4 j]
      have hiff : (j < n ∧ j < op.numelIn) ↔ (j < n + 1 ∧ j < op.numelIn) := by omega
      rw [if_congr hiff rfl rfl]

/-- Claim C6: pooling backward launches only add to the existing gradient
buffer: every `grad_inp` entry afterwards equals its value before the call
plus that input position's computed window contribution (and out-of-range
entries are untouched), while the `inp`, `out`, and `grad_out` buffers are
unchanged — for avg, max, and min pooling alike. -/
theorem pool2d_backward_accumulates (op : Pool2dOp) (is os : Nat → Nat)
    (stA : AvgBwdState) (stM : MaxBwdState) (stN : MinBwdState) :
    ((avg_pool2d_backward op is os stA).inp = stA.inp ∧
      (avg_pool2d_backward op is os stA).out = stA.out ∧
      (avg_pool2d_backward op is os stA).grad_out = stA.grad_out ∧
      ∀ j, (avg_pool2d_backward op is os stA).grad_inp j =
        stA.grad_inp j +
          (if j < op.numelIn then avgBwdContribAt op os stA.grad_out j else 0)) ∧
    ((max_pool2d_backward op is os stM).inp = stM.inp ∧
      (max_pool2d_backward op is os stM).out = stM.out ∧
      (max_pool2d_backward op is os stM).grad_out = stM.grad_out ∧
      ∀ j, (max_pool2d_backward op is os stM).grad_inp j =
        stM.grad_inp j +
          (if j < op.numelIn then
            maxBwdContribAt op os stM.out stM.grad_out (stM.inp j) j else 0)) ∧
    ((min_pool2d_backward op is os stN).inp = stN.inp ∧
      (min_pool2d_backward op is os stN).out = stN.out ∧
      (min_pool2d_backward op is os stN).grad_out = stN.grad_out ∧
      ∀ j, (min_pool2d_backward op is os stN).grad_inp j =
        stN.grad_inp j +
          (if j < op.numelIn then
            minBwdContribAt op os stN.out stN.grad_out (stN.inp j) j else 0)) := by
  obtain ⟨a1, a2, a3, a4⟩ := avgBwdRun_spec op is os op.numelIn stA
  obtain ⟨m1, m2, m3, m4⟩ := maxBwdRun_spec op is os op.numelIn stM
  obtain ⟨n1, n2, n3, n4⟩ := minBwdRun_spec op is os op.numelIn stN
  unfold avg_pool2d_backward max_pool2d_backward min_pool2d_backward
  refine ⟨⟨a1, a2, a3, fun j => ?_⟩, ⟨m1, m2, m3, fun j => ?_⟩,
    ⟨n1, n2, n3, fun j => ?_⟩⟩
  · rw [a4 j, if_congr (show (j < op.numelIn ∧ j < op.numelIn) ↔ j < op.numelIn by tauto) rfl rfl]
  · rw [m4 j, if_congr (show (j < op.numelIn ∧ j < op.numelIn) ↔ j < op.numelIn by tauto) rfl rfl]
  · rw [n4 j, if_congr (show (j < op.numelIn ∧ j < op.numelIn) ↔ j < op.numelIn by tauto) rfl rfl]

/-- Claim C8: each pooling backward task writes only `grad_inp` at its own
flat input index, so two distinct tasks write disjoint locations and commute:
no atomics are needed, a plain read-modify-write accumulate suffices. -/
theorem pool2d_backward_writes_disjoint (op : Pool2dOp) (is os : Nat → Nat)
    (i i' : Nat) (hne : i ≠ i') :
    (∀ (st : AvgBwdState) (j : Nat), j ≠ i →
      (avgBwdTask op is os i st).grad_inp j = st.grad_inp j) ∧
    (∀ (st : MaxBwdState) (j : Nat), j ≠ i →
      (maxBwdTask op is os i st).grad_inp j = st.grad_inp j) ∧
    (∀ (st : MinBwdState) (j : Nat), j ≠ i →
      (minBwdTask op is os i st).grad_inp j = st.grad_inp j) ∧
    (∀ st : AvgBwdState, avgBwdTask op is os i (avgBwdTask op is os i' st) =
      avgBwdTask op is os i' (avgBwdTask op is os i st)) ∧
    (∀ st : MaxBwdState, maxBwdTask op is os i (maxBwdTask op is os i' st) =
      maxBwdTask op is os i' (maxBwdTask op is os i st)) ∧
    (∀ st : MinBwdState, minBwdTask op is os i (minBwdTask op is os i' st) =
      minBwdTask op is os i' (minBwdTask op is os i st)) := by
  refine ⟨fun st j hj => ?_, fun st j hj => ?_, fun st j hj => ?_,
    fun st => ?_, fun st => ?_, fun st => ?_⟩
  · unfold avgBwdTask
    by_cases hi : i < op.numelIn
    · rw [if_pos hi]
      exact Function.update_noteq hj _ _
    · rw [if_neg hi]
  · unfold maxBwdTask
    by_cases hi : i < op.numelIn
    · rw [if_pos hi]
      exact Function.update_noteq hj _ _
    · rw [if_neg hi]
  · unfold minBwdTask
    by_cases hi : i < op.numelIn
    · rw [if_pos hi]
      exact Function.update_noteq hj _ _
    · rw [if_neg hi]
  · cases st
    by_cases hi : i < op.numelIn <;> by_cases hi' : i' < op.numelIn <;>
      simp only [avgBwdTask, hi, hi', if_true, if_false, ite_true, ite_false,
        Function.update_noteq hne, Function.update_noteq (Ne.symm hne)]
    rw [Function.update_comm (Ne.symm hne)]
  · cases st
    by_cases hi : i < op.numelIn <;> by_cases hi' : i' < op.numelIn <;>
      simp only [maxBwdTask, hi, hi', if_true, if_false, ite_true, ite_false,
        Function.update_noteq hne, Function.update_noteq (Ne.symm hne)]
    rw [Function.update_comm (Ne.symm hne)]
  · cases st
    by_cases hi : i < op.numelIn <;> by_cases hi' : i' < op.numelIn <;>
      simp only [minBwdTask, hi, hi', if_true, if_false, ite_true, ite_false,
        Function.update_noteq hne, Function.update_noteq (Ne.symm hne)]
    rw [Function.update_comm (Ne.symm hne)]

/-- Witness for C8 at concrete distinct task indices 0 and 1 on `exOpA`. -/
theorem pool2d_backward_writes_disjoint_witness :
    (∀ (st : AvgBwdState) (j : Nat), j ≠ 0 →
      (avgBwdTask exOpA (fun d => [9, 9, 3, 1].getD d 0)
        (fun d => [4, 4, 2, 1].getD d 0) 0 st).grad_inp j = st.grad_inp j) ∧
    (∀ (st : MaxBwdState) (j : Nat), j ≠ 0 →
      (maxBwdTask exOpA (fun d => [9, 9, 3, 1].getD d 0)
        (fun d => [4, 4, 2, 1].getD d 0) 0 st).grad_inp j = st.grad_inp j) ∧
    (∀ (st : MinBwdState) (j : Nat), j ≠ 0 →
      (minBwdTask exOpA (fun d => [9, 9, 3, 1].getD d 0)
        (fun d => [4, 4, 2, 1].getD d 0) 0 st).grad_inp j = st.grad_inp j) ∧
    (∀ st : AvgBwdState, avgBwdTask exOpA (fun d => [9, 9, 3, 1].getD d 0)
        (fun d => [4, 4, 2, 1].getD d 0) 0
        (avgBwdTask exOpA (fun d => [9, 9, 3, 1].getD d 0)
          (fun d => [4, 4, 2, 1].getD d 0) 1 st) =
      avgBwdTask exOpA (fun d => [9, 9, 3, 1].getD d 0)
        (fun d => [4, 4, 2, 1].getD d 0) 1
        (avgBwdTask exOpA (fun d => [9, 9, 3, 1].getD d 0)
          (fun d => [4, 4, 2, 1].getD d 0) 0 st)) ∧
    (∀ st : MaxBwdState, maxBwdTask exOpA (fun d => [9, 9, 3, 1].getD d 0)
        (fun d => [4, 4, 2, 1].getD d 0) 0
        (maxBwdTask exOpA (fun d => [9, 9, 3, 1].getD d 0)
          (fun d => [4, 4, 2, 1].getD d 0) 1 st) =
      maxBwdTask exOpA (fun d => [9, 9, 3, 1].getD d 0)
        (fun d => [4, 4, 2, 1].getD d 0) 1
        (maxBwdTask exOpA (fun d => [9, 9, 3, 1].getD d 0)
          (fun d => [4, 4, 2, 1].getD d 0) 0 st)) ∧
    (∀ st : MinBwdState, minBwdTask exOpA (fun d => [9, 9, 3, 1].getD d 0)
        (fun d => [4, 4, 2, 1].getD d 0) 0
        (minBwdTask exOpA (fun d => [9, 9, 3, 1].getD d 0)
          (fun d => [4, 4, 2, 1].getD d 0) 1 st) =
      minBwdTask exOpA (fun d => [9, 9, 3, 1].getD d 0)
        (fun d => [4, 4, 2, 1].getD d 0) 1
        (minBwdTask exOpA (fun d => [9, 9, 3, 1].getD d 0)
          (fun d => [4, 4, 2, 1].getD d 0) 0 st)) :=
  pool2d_backward_writes_disjoint exOpA (fun d => [9, 9, 3, 1].getD d 0)
    (fun d => [4, 4, 2, 1].getD d 0) 0 1 (by decide)

/-- The `avg_pool2d_forward` launch: every in-range thread stores its value at
the raw flat index `out[i]`; out-of-range entries of the output buffer are
untouched. -/
def avgFwdRun (op : Pool2dOp) (is os : Nat → Nat) (inp out : Nat → ℚ) : Nat → ℚ :=
  fun i => if i < op.numelOut then avg_pool2d_forward op is os inp i else out i

/-- The `max_pool2d_forward` launch. -/
def maxFwdRun (op : Pool2dOp) (is os : Nat → Nat) (inp : Nat → ℚ)
    (out : Nat → WithBot ℚ) : Nat → WithBot ℚ :=
  fun i => if i < op.numelOut then max_pool2d_forward op is os inp i else out i

/-- The `min_pool2d_forward` launch. -/
def minFwdRun (op : Pool2dOp) (is os : Nat → Nat) (inp : Nat → ℚ)
    (out : Nat → WithTop ℚ) : Nat → WithTop ℚ :=
  fun i => if i < op.numelOut then min_pool2d_forward op is os inp i else out i

/-- Claim C9: the pooling forward kernels never read their `out_strides`
argument (they store at `out[i]`, the raw flat thread index), and the pooling
backward kernels never read their `inp_strides` argument (they read `inp[i]`
and write `grad_inp[i]` at the raw flat index): two launches differing only
in those stride arrays produce identical results, so the output (forward) and
input/gradient (backward) tensors are implicitly required to be contiguous
row-major. -/
theorem pool2d_unused_strides (op : Pool2dOp) (is is' os os' : Nat → Nat) :
    (∀ (inp out : Nat → ℚ), avgFwdRun op is os inp out = avgFwdRun op is os' inp out) ∧
    (∀ (inp : Nat → ℚ) (out : Nat → WithBot ℚ),
      maxFwdRun op is os inp out = maxFwdRun op is os' inp out) ∧
    (∀ (inp : Nat → ℚ) (out : Nat → WithTop ℚ),
      minFwdRun op is os inp out = minFwdRun op is os' inp out) ∧
    (∀ st : AvgBwdState,
      avg_pool2d_backward op is os st = avg_pool2d_backward op is' os st) ∧
    (∀ st : MaxBwdState,
      max_pool2d_backward op is os st = max_pool2d_backward op is' os st) ∧
    (∀ st : MinBwdState,
      min_pool2d_backward op is os st = min_pool2d_backward op is' os st) :=
  ⟨fun _ _ => rfl, fun _ _ => rfl, fun _ _ => rfl,
    fun _ => rfl, fun _ => rfl, fun _ => rfl⟩

/-! ### relu (`relu.cu`) -/

/-- relu forward formula from `relu.cu`: `fmaxf(x, 0.0)`. -/
def relu_forward (x : ℚ) : ℚ := max x 0

/-- relu backward derivative formula from `relu.cu`: `x > 0.0 ? 1.0 : 0.0`. -/
def relu_backward_df (x : ℚ) : ℚ := if x > 0 then 1 else 0

/-- Claim C7: the relu backward derivative is exactly 1 for every `x > 0` and
exactly 0 for every `x <= 0`; the boundary `x = 0` is classified as 0. -/
theorem relu_backward_derivative (x : ℚ) :
    (0 < x → relu_backward_df x = 1) ∧ (x ≤ 0 → relu_backward_df x = 0) := by
  constructor
  · intro h
    simp [relu_backward_df, h]
  · intro h
    simp [relu_backward_df, not_lt.mpr h]

/-- Witness for C7 at `x = 2`, `x = 0` (boundary), and `x = -3`. -/
theorem relu_backward_derivative_witness :
    relu_backward_df 2 = 1 ∧ relu_backward_df 0 = 0 ∧ relu_backward_df (-3) = 0 :=
  ⟨(relu_backward_derivative 2).1 (by norm_num), (relu_backward_derivative 0).2 le_rfl,
    (relu_backward_derivative (-3)).2 (by norm_num)⟩

/-! ### Elementwise binary div backward (`binary_div.cu`) -/

/-- The two gradient buffers `binary_div_backward` accumulates into. -/
structure DivBwdState where
  grad_lhs : Nat → ℚ
  grad_rhs : Nat → ℚ

/-- One thread of `binary_div_backward`: thread `i` returns early when
`i >= numel`, otherwise resolves the lhs/rhs/out offsets through the strided
index resolver, reads `x = lhs[lhs_i]`, `y = rhs[rhs_i]`, `go = grad_out[out_i]`,
and atomically adds `(1/y) * go` into `grad_lhs[lhs_i]` and `(-x/(y*y)) * go`
into `grad_rhs[rhs_i]`. -/
def divBwdTask (numel : Nat) (dims ls rs os : List Nat) (lhs rhs grad_out : Nat → ℚ)
    (i : Nat) (st : DivBwdState) : DivBwdState :=
  if i < numel then
    let lhs_i := get_strided_index i dims ls
    let rhs_i := get_strided_index i dims rs
    let out_i := get_strided_index i dims os
    let x := lhs lhs_i
    let y := rhs rhs_i
    let go := grad_out out_i
    let gl := Function.update st.grad_lhs lhs_i (st.grad_lhs lhs_i + 1 / y * go)
    let gr := Function.update st.grad_rhs rhs_i (st.grad_rhs rhs_i + -x / (y * y) * go)
    { grad_lhs := gl, grad_rhs := gr }
  else st

/-- The `binary_div_backward` launch: one task per flat logical index.  The
atomic adds commute (rational addition), so the sequential fold computes the
same totals as any parallel interleaving. -/
def binary_div_backward (numel : Nat) (dims ls rs os : List Nat)
    (lhs rhs grad_out : Nat → ℚ) (st : DivBwdState) : DivBwdState :=
  runTasks (divBwdTask numel dims ls rs os lhs rhs grad_out) numel st

theorem stridedLoop_eq_zero (i : Nat) (l : List (Nat × Nat))
    (h : ∀ p ∈ l, p.2 = 0) : stridedLoop i l = 0 := by
  induction l generalizing i with
  | nil => rfl
  | cons p rest ih =>
    simp only [stridedLoop]
    rw [h p (List.mem_cons_self p rest),
      ih (i / p.1) fun q hq => h q (List.mem_cons_of_mem p hq)]
    simp

/-- Broadcasting: with an all-zero stride list, the resolver maps every flat
index to storage offset 0. -/
theorem get_strided_index_zero_strides (i : Nat) (dims : List Nat) :
    get_strided_index i dims (List.replicate dims.length 0) = 0 := by
  apply stridedLoop_eq_zero
  rintro ⟨p1, p2⟩ hp
  rw [List.mem_reverse] at hp
  exact List.eq_of_mem_replicate (List.of_mem_zip hp).2

theorem divBwdRun_spec (numel : Nat) (dims ls rs os : List Nat)
    (lhs rhs g : Nat → ℚ) :
    ∀ (n : Nat), n ≤ numel → ∀ (st : DivBwdState),
      (∀ j, (runTasks (divBwdTask numel dims ls rs os lhs rhs g) n st).grad_lhs j =
        st.grad_lhs j + ∑ i ∈ Finset.range n,
          (if get_strided_index i dims ls = j then
            1 / rhs (get_strided_index i dims rs) * g (get_strided_index i dims os)
          else 0)) ∧
      (∀ j, (runTasks (divBwdTask numel dims ls rs os lhs rhs g) n st).grad_rhs j =
        st.grad_rhs j + ∑ i ∈ Finset.range n,
          (if get_strided_index i dims rs = j then
            -lhs (get_strided_index i dims ls) /
                (rhs (get_strided_index i dims rs) * rhs (get_strided_index i dims rs)) *
              g (get_strided_index i dims os)
          else 0)) := by
  intro n
  induction n with
  | zero =>
    exact fun _ st => ⟨fun j => by simp [runTasks], fun j => by simp [runTasks]⟩
  | succ n ih =>
    intro hle st
    have hn : n < numel := by omega
    obtain ⟨ihl, ihr⟩ := ih (by omega) st
    have hstep : runTasks (divBwdTask numel dims ls rs os lhs rhs g) (n + 1) st =
        divBwdTask numel dims ls rs os lhs rhs g n
          (runTasks (divBwdTask numel dims ls rs os lhs rhs g) n st) := rfl
    have htask : ∀ s : DivBwdState, divBwdTask numel dims ls rs os lhs rhs g n s =
        if n < numel then
          let gl := Function.update s.grad_lhs (get_strided_index n dims ls)
            (s.grad_lhs (get_strided_index n dims ls) +
              1 / rhs (get_strided_index n dims rs) * g (get_strided_index n dims os))
          let gr := Function.update s.grad_rhs (get_strided_index n dims rs)
            (s.grad_rhs (get_strided_index n dims rs) +
              -lhs (get_strided_index n dims ls) /
                  (rhs (get_strided_index n dims rs) * rhs (get_strided_index n dims rs)) *
                g (get_strided_index n dims os))
          { grad_lhs := gl, grad_rhs := gr }
        else s := fun _ => rfl
    rw [hstep, htask, if_pos hn]
    constructor
    · intro j
      show Function.update _ _ _ j = _
      rw [Function.update_apply, Finset.sum_range_succ]
      by_cases hj : j = get_strided_index n dims ls
      · subst hj
        rw [if_pos rfl, ihl, if_pos rfl]
        ring
      · rw [if_neg hj, ihl, if_neg fun h => hj h.symm]
        ring
    · intro j
      show Function.update _ _ _ j = _
      rw [Function.update_apply, Finset.sum_range_succ]
      by_cases hj : j = get_strided_index n dims rs
      · subst hj
        rw [if_pos rfl, ihr, if_pos rfl]
        ring
      · rw [if_neg hj, ihr, if_neg fun h => hj h.symm]
        ring

/-- Claim C5: for each flat index in range, `binary_div_backward` atomically
accumulates `(1/y) * grad_out` into `grad_lhs` at the lhs-resolved offset and
`(-x/y^2) * grad_out` into `grad_rhs` at the rhs-resolved offset; the total
accumulated at any storage offset is the sum over the flat indices resolving
to it, and when `rhs` is fully broadcast (all strides 0) the shared offset 0
receives the sum of `-x/y^2 * grad_out` over all broadcasted logical
positions. -/
theorem binary_div_backward_accumulates (numel : Nat) (dims ls rs os : List Nat)
    (lhs rhs g : Nat → ℚ) (st : DivBwdState) :
    (∀ j, (binary_div_backward numel dims ls rs os lhs rhs g st).grad_lhs j =
      st.grad_lhs j +
        ∑ i ∈ (Finset.range numel).filter (fun i => get_strided_index i dims ls = j),
          1 / rhs (get_strided_index i dims rs) * g (get_strided_index i dims os)) ∧
    (∀ j, (binary_div_backward numel dims ls rs os lhs rhs g st).grad_rhs j =
      st.grad_rhs j +
        ∑ i ∈ (Finset.range numel).filter (fun i => get_strided_index i dims rs = j),
          -lhs (get_strided_index i dims ls) /
              (rhs (get_strided_index i dims rs) * rhs (get_strided_index i dims rs)) *
            g (get_strided_index i dims os)) ∧
    (rs = List.replicate dims.length 0 →
      (binary_div_backward numel dims ls rs os lhs rhs g st).grad_rhs 0 =
        st.grad_rhs 0 + ∑ i ∈ Finset.range numel,
          -lhs (get_strided_index i dims ls) / (rhs 0 * rhs 0) *
            g (get_strided_index i dims os)) := by
  obtain ⟨hl, hr⟩ := divBwdRun_spec numel dims ls rs os lhs rhs g numel le_rfl st
  refine ⟨fun j => ?_, fun j => ?_, fun hrs => ?_⟩
  · unfold binary_div_backward
    rw [hl j, Finset.sum_filter]
  · unfold binary_div_backward
    rw [hr j, Finset.sum_filter]
  · have hz : ∀ i, get_strided_index i dims rs = 0 := fun i => by
      rw [hrs]; exact get_strided_index_zero_strides i dims
    unfold binary_div_backward
    rw [hr 0]
    congr 1
    refine Finset.sum_congr rfl fun i _ => ?_
    rw [hz i, if_pos rfl]

/-- Witness for C5: 2 logical positions dividing `[4, 6]` by a broadcast
scalar 2 (rhs strides `[0]`), gradient 1 everywhere, zero-initialized grads;
the shared rhs offset accumulates `-4/4 - 6/4 = -5/2`. -/
theorem binary_div_backward_accumulates_witness :
    (binary_div_backward 2 [2] [1] [0] [1] (fun j => [4, 6].getD j 0) (fun _ => 2)
        (fun _ => 1) { grad_lhs := fun _ => 0, grad_rhs := fun _ => 0 }).grad_rhs 0 =
      -5 / 2 := by
  have h := (binary_div_backward_accumulates 2 [2] [1] [0] [1]
    (fun j => [4, 6].getD j 0) (fun _ => 2) (fun _ => 1)
    { grad_lhs := fun _ => 0, grad_rhs := fun _ => 0 }).2.2 rfl
  rw [h]
  norm_num [Finset.sum_range_succ, get_strided_index, stridedLoop]

/-! ### Max/min backward tie policy: concrete duplicated-extremum example -/

/-- Example descriptor for the tie example: one 2x2 window pooled to a single
output (kernel 2, stride 2, no padding). -/
def exOpB : Pool2dOp where
  kernel := 2
  stride := 2
  padding := 0
  batch := 1
  chan := 1
  h_in := 2
  h_out := 1
  w_in := 2
  w_out := 1

/-- Example input `[5, 5, 3, 2]`: the maximum 5 is duplicated at flat
positions 0 and 1. -/
def inpB : Nat → ℚ := fun i => [5, 5, 3, 2].getD i 0

/-- Stored max-pool forward output for `inpB` (single output, value 5). -/
def outMaxB : Nat → WithBot ℚ := fun _ => ((5 : ℚ) : WithBot ℚ)

/-- Stored min-pool forward output for `inpB` (single output, value 2). -/
def outMinB : Nat → WithTop ℚ := fun _ => ((2 : ℚ) : WithTop ℚ)

/-- Output gradient 1 at the single output position. -/
def gradOutB : Nat → ℚ := fun _ => 1

/-- Output strides of the 1x1x1x1 output tensor. -/
def osB : Nat → Nat := fun _ => 1

/-- Claim C4: in max/min pool backward, a visited output position contributes
its full `grad_out` exactly when the stored forward output there equals this
input's forward value: the per-input contribution equals the reference sum
over all covering output positions whose stored value matches (each
contributing in full).  Consequently, with the duplicated maximum `[5, 5; 3, 2]`
both tied positions receive the full gradient 1 (not split), non-matching
positions receive 0, and dually for the minimum. -/
theorem max_min_pool2d_backward_tie_policy :
    (∀ (op : Pool2dOp) (os : Nat → Nat) (out : Nat → WithBot ℚ) (g : Nat → ℚ)
      (v : ℚ) (b c y x : Nat), 0 < op.stride → y < op.h_in → x < op.w_in →
      maxBwdContrib op os out g v b c y x = maxBwdRef op os out g v b c y x) ∧
    (∀ (op : Pool2dOp) (os : Nat → Nat) (out : Nat → WithTop ℚ) (g : Nat → ℚ)
      (v : ℚ) (b c y x : Nat), 0 < op.stride → y < op.h_in → x < op.w_in →
      minBwdContrib op os out g v b c y x = minBwdRef op os out g v b c y x) ∧
    (maxBwdContribAt exOpB osB outMaxB gradOutB (inpB 0) 0 = 1 ∧
      maxBwdContribAt exOpB osB outMaxB gradOutB (inpB 1) 1 = 1 ∧
      maxBwdContribAt exOpB osB outMaxB gradOutB (inpB 2) 2 = 0) ∧
    (minBwdContribAt exOpB osB outMinB gradOutB (inpB 3) 3 = 1 ∧
      minBwdContribAt exOpB osB outMinB gradOutB (inpB 2) 2 = 0) := by
  refine ⟨fun op os out g v b c y x hs hy hx =>
      maxBwdContrib_eq_ref op hs os out g v b c y x hy hx,
    fun op os out g v b c y x hs hy hx =>
      minBwdContrib_eq_ref op hs os out g v b c y x hy hx,
    ⟨?_, ?_, ?_⟩, ⟨?_, ?_⟩⟩ <;>
  · norm_num [maxBwdContribAt, maxBwdContrib, minBwdContribAt, minBwdContrib,
      decodeIn, exOpB, osB, outMaxB, outMinB, gradOutB, inpB, bwdCheckH, bwdCheckW,
      bwdOh, bwdOw, outIndex, Finset.sum_range_succ] <;> decide

/-- Witness for C4 at the concrete descriptor `exOpB`, input position
`(0, 0)`, forward value 5. -/
theorem max_min_pool2d_backward_tie_policy_witness :
    maxBwdContrib exOpB osB outMaxB gradOutB 5 0 0 0 0 =
      maxBwdRef exOpB osB outMaxB gradOutB 5 0 0 0 0 :=
  max_min_pool2d_backward_tie_policy.1 exOpB osB outMaxB gradOutB 5 0 0 0 0
    (by decide) (by decide) (by decide)

end Stag
